import Mathlib

/-!
Shallow embedding of the swarming client collection engine
(`tools/swarming_client/swarming.py`), the memoization engine
(`native_client/toolchain_build/once.py`) and the retrying URL helper
(`scripts/tools/swarm_bootstrap/url_helper.py`), together with proofs
about the behaviour the specification ascribes to them.
-/

/-- A JSON scalar as it arrives in a shard-result dictionary.  Only the
distinction "an integer" versus "anything else" matters to the code we
model (`isinstance(shard_index, int)`); non-integers are represented by
the `str` constructor. -/
inductive PyVal where
  | int (n : Int)
  | str (s : String)
  deriving DecidableEq, Repr

/-- One shard result as returned by the dispatcher
(`GetRunnerResults`): the fields `swarming.py` reads.  The field
`output_files_location` holds the value that
`extract_output_files_location(result['output'])` computes from the
`[run_isolated_out_hack]` marker embedded in `output`: `none` when no
valid marker is present, otherwise the `(isolate_server, namespace,
isolated_hash)` triple.  The claims under proof treat that parse as a
black box, so the parsed value is carried alongside the raw text. -/
structure ShardResult where
  config_instance_index : PyVal
  machine_id : String
  machine_tag : String
  exit_codes : String
  output : String
  output_files_location : Option (String × String × String)
  deriving DecidableEq, Repr

/-! ### Exit-code aggregation in `collect` (swarming.py lines 723-767) -/

/-- Python `s.split(',')` on the character list of `s`: cut at every
comma, keeping empty pieces.  On a non-empty string the result is a
non-empty list of pieces. -/
def splitComma : List Char → List (List Char)
  | [] => [[]]
  | c :: rest =>
    if c = ',' then [] :: splitComma rest
    else match splitComma rest with
      | [] => [[c]]
      | p :: ps => (c :: p) :: ps

/-- Python `int(piece)` for the well-formed decimal pieces the exit-code
strings contain: an optional leading minus sign followed by digits. -/
def pyIntOfChars (cs : List Char) : Int :=
  let digits := fun (l : List Char) => l.foldl (fun a c => 10 * a + (c.toNat - 48)) 0
  match cs with
  | '-' :: rest => -(Int.ofNat (digits rest))
  | _ => Int.ofNat (digits cs)

/-- Per-shard exit code, from `collect`:
`shard_exit_codes = (output['exit_codes'] or '1').split(',')` followed by
`shard_exit_code = max(int(i) for i in shard_exit_codes)`.  The Python
`or` substitutes `'1'` exactly when the string is empty (falsy). -/
def shard_exit_code (exit_codes : String) : Int :=
  let s := if exit_codes = "" then "1" else exit_codes
  match (splitComma s.data).map pyIntOfChars with
  | [] => 0
  | c :: cs => cs.foldl max c

/-- Python `a or b` on an optional integer accumulator: `None or b = b`,
`0 or b = b`, and a non-zero value is kept.  This is the update
`exit_code = exit_code or shard_exit_code` in `collect`. -/
def pyOrUpdate : Option Int → Int → Option Int
  | none, b => some b
  | some a, b => some (if a = 0 then b else a)

/-- The `or`-fold over a list of integer codes starting from `0`:
returns the first non-zero element, or `0` when all are zero.  Used to
describe what `collect`'s accumulator actually computes. -/
def py_or_fold (codes : List Int) : Int :=
  codes.foldl (fun a b => if a = 0 then b else a) 0

/-- The exit-code computation of `collect` over the sequence of
`(index, result)` pairs produced by `yield_results`, given
`num_keys = len(task_keys)`:

* `seen_shards.add(index)` — the first component accumulates the set of
  seen indices;
* `exit_code = exit_code or shard_exit_code` — the second component;
* after the loop, `if len(seen_shards) != len(task_keys): exit_code =
  exit_code or 1`;
* finally `return exit_code if exit_code is not None else 1`. -/
def collect_run (num_keys : Nat) (yielded : List (Int × ShardResult)) : Int :=
  let r := yielded.foldl
    (fun acc p => (insert p.1 acc.1, pyOrUpdate acc.2 (shard_exit_code p.2.exit_codes)))
    ((∅ : Finset Int), (none : Option Int))
  let ec := if r.1.card ≠ num_keys then pyOrUpdate r.2 1 else r.2
  ec.getD 1

/-! ### The consumer loop of `yield_results` (swarming.py lines 432-497)

The engine enqueues one `retrieve_results` worker per task key; each
worker posts either a result dict or `None` (failure / timeout) to the
results channel.  The consumer loop pulls values in completion order.
We model the sequence of pulled values as a `List (Option ShardResult)`
(`none` is a falsy result: `if not result: continue`) and the mutable
`shards_remaining = range(len(task_keys))` list explicitly. -/

/-- The body of the consumer loop: for each pulled value, skip falsy
results, look the shard index up in `shards_remaining` (Python
`shard_index in shards_remaining`, which is `False` for a non-integer
index compared against a list of ints), and either remove-and-yield or
log the duplicate and skip. -/
def yield_results_go : List Int → List (Option ShardResult) → List (Int × ShardResult)
  | _, [] => []
  | remaining, none :: rest => yield_results_go remaining rest
  | remaining, some r :: rest =>
    match r.config_instance_index with
    | .int i =>
      if i ∈ remaining then
        (i, r) :: yield_results_go (remaining.erase i) rest
      else
        yield_results_go remaining rest
    | .str _ => yield_results_go remaining rest

/-- `yield_results` for `num_keys` task keys over a pulled sequence:
`shards_remaining` starts as `range(len(task_keys))`. -/
def yield_results_run (num_keys : Nat) (pulled : List (Option ShardResult)) :
    List (Int × ShardResult) :=
  yield_results_go ((List.range num_keys).map Int.ofNat) pulled

/-- The first result among the pulled values whose
`config_instance_index` equals `i` (ignoring falsy `None` entries). -/
def first_result_with_index (pulled : List (Option ShardResult)) (i : Int) :
    Option ShardResult :=
  ((pulled.filterMap id).filter (fun s => s.config_instance_index = PyVal.int i)).head?

/-! ### `TaskOutputCollector` (swarming.py lines 177-278) -/

/-- The mutable state of a `TaskOutputCollector`: the expected shard
count, the task name, the per-shard result map `_per_shard_results`
(keyed by shard index; represented as an association list in insertion
order) and the lazily-opened storage handle `_storage`, identified by
its `(location, namespace)` pair. -/
structure CollectorState where
  shard_count : Nat
  task_name : String
  per_shard_results : List (Nat × ShardResult)
  storage : Option (String × String)
  deriving DecidableEq, Repr

/-- A freshly constructed collector: empty result map, no storage. -/
def init_collector (task_name : String) (shard_count : Nat) : CollectorState :=
  { shard_count := shard_count
    task_name := task_name
    per_shard_results := []
    storage := none }

/-- `TaskOutputCollector._get_storage`: the first shard to need storage
fixes `(isolate_server, namespace)`; a later request with a different
server or namespace logs an error and returns `None` (here `none`),
leaving the stored handle unchanged. -/
def get_storage (st : CollectorState) (isolate_server namespace_ : String) :
    CollectorState × Option (String × String) :=
  match st.storage with
  | none =>
    let s := (isolate_server, namespace_)
    ({ st with storage := some s }, some s)
  | some (loc, ns) =>
    if loc ≠ isolate_server then (st, none)
    else if ns ≠ namespace_ then (st, none)
    else (st, some (loc, ns))

/-- A call to `isolateserver.fetch_isolated` issued by
`process_shard_result`: which isolated tree is materialized, from which
server and namespace, into which per-shard directory. -/
structure FetchCall where
  isolate_server : String
  namespace_ : String
  isolated_hash : String
  shard_index : Nat
  deriving DecidableEq, Repr

/-- `TaskOutputCollector.process_shard_result`:

* a non-integer `config_instance_index` raises `ValueError`;
* an integer index outside `[0, shard_count)` logs a warning and
  returns without storing or fetching;
* an index already present in `_per_shard_results` logs a warning and
  returns without storing or fetching;
* otherwise the result is stored, and if the output text carries a
  valid `[run_isolated_out_hack]` marker and `_get_storage` accepts its
  `(server, namespace)`, the referenced isolated tree is fetched into
  `<task_output_dir>/<shard_index>`. -/
def process_shard_result (st : CollectorState) (result : ShardResult) :
    Except String (CollectorState × Option FetchCall) :=
  match result.config_instance_index with
  | .str _ => .error "Shard index should be an int"
  | .int i =>
    if i < 0 ∨ (st.shard_count : Int) ≤ i then .ok (st, none)
    else
      let idx := i.toNat
      if (st.per_shard_results.lookup idx).isSome then .ok (st, none)
      else
        let st1 : CollectorState :=
          { st with per_shard_results := st.per_shard_results ++ [(idx, result)] }
        match result.output_files_location with
        | none => .ok (st1, none)
        | some (server, ns, hash_) =>
          match get_storage st1 server ns with
          | (st2, none) => .ok (st2, none)
          | (st2, some (loc, nsp)) =>
            .ok (st2, some ⟨loc, nsp, hash_, idx⟩)

/-- One collector step as seen by the shared state: a `ValueError` is
raised before any mutation, so the state is unchanged on error. -/
def process_step (st : CollectorState) (result : ShardResult) : CollectorState :=
  match process_shard_result st result with
  | .ok (st1, _) => st1
  | .error _ => st

/-- The collector state after a sequence of `process_shard_result`
calls (the calls arrive in some serialized order; `_lock` serializes the
mutations). -/
def process_all (st : CollectorState) (results : List ShardResult) : CollectorState :=
  results.foldl process_step st

/-- The `summary.json` document written by
`TaskOutputCollector.finalize`: `{task_name, shards}` where `shards`
has one position per expected shard, holding the recorded result or
`null`. -/
structure Summary where
  task_name : String
  shards : List (Option ShardResult)
  deriving DecidableEq, Repr

/-- `TaskOutputCollector.finalize`:
`shards = [self._per_shard_results.get(i) for i in xrange(self.shard_count)]`. -/
def finalize (st : CollectorState) : Summary :=
  { task_name := st.task_name
    shards := (List.range st.shard_count).map (fun i => st.per_shard_results.lookup i) }

/-! ### `Manifest` freezing (swarming.py lines 61-174) -/

/-- `isolateserver.BufferItem`: the in-memory blob built from the
manifest's bundle by `zip_into_buffer`. -/
structure BufferItem where
  buffer : String
  high_priority : Bool
  deriving DecidableEq, Repr

/-- A `TestObject` entry of the manifest's `_tasks` list, as appended
by `Manifest.add_task`. -/
structure TestObject where
  action : List String
  decorate_output : Bool
  test_name : String
  hard_time_out : Int
  deriving DecidableEq, Repr

/-- The mutable part of a `Manifest` relevant to freezing:
`bundle_zip` stands for `self.bundle.zip_into_buffer()`,
`isolate_item_state` for `self._isolate_item` and `tasks` for
`self._tasks`. -/
structure Manifest where
  bundle_zip : String
  verbose : Bool
  isolate_item_state : Option BufferItem
  tasks : List TestObject
  deriving DecidableEq, Repr

/-- `Manifest.add_task`: `assert not self._isolate_item` and append a
`TestObject`.  A failed assertion is modelled as `none`. -/
def Manifest.add_task (m : Manifest) (task_name : String) (actions : List String)
    (time_out : Int) : Option Manifest :=
  if m.isolate_item_state.isSome then none
  else some { m with tasks := m.tasks ++
    [{ action := actions
       decorate_output := m.verbose
       test_name := task_name
       hard_time_out := time_out }] }

/-- The `Manifest.isolate_item` property: materializes the bundle into
a high-priority `BufferItem` on first evaluation and caches it in
`_isolate_item`, which closes the manifest.  Returns the updated
manifest together with the item. -/
def Manifest.isolate_item (m : Manifest) : Manifest × BufferItem :=
  match m.isolate_item_state with
  | some it => (m, it)
  | none =>
    let it : BufferItem := { buffer := m.bundle_zip, high_priority := true }
    ({ m with isolate_item_state := some it }, it)

/-! ### The memoization engine `Once` (once.py)

Storage operations are modelled by oracles: `GetDirectory` returns
`none` on a miss or failed download (gsd_storage `Get*` operations
swallow errors and return `None`), while `PutDirectory`/`PutData` raise
`GSDStorageError` on failure. -/

/-- `pynacl.gsd_storage.GSDStorageError`. -/
structure GSDStorageError where
  message : String
  deriving DecidableEq, Repr

/-- `pynacl.directory_storage.DirectoryStorageItem` as far as `Once`
inspects it: its name, hash and URL. -/
structure DirItem where
  name : String
  hash_ : String
  url : String
  deriving DecidableEq, Repr

/-- The storage oracles a `Once` instance talks to during
`WriteResultToCache`. -/
structure OnceStorage where
  getDirectory : String → Option DirItem
  putDirectory : String → Except GSDStorageError DirItem
  putData : String → String → Except GSDStorageError Unit

/-- `Once.KeyForOutput`. -/
def KeyForOutput (package output_hash : String) : String :=
  "object/" ++ package ++ "_" ++ output_hash ++ ".tgz"

/-- `Once.KeyForBuildSignature`. -/
def KeyForBuildSignature (build_signature : String) : String :=
  "computed/" ++ build_signature ++ ".txt"

/-- `Once.WriteResultToCache` for a computed output whose stable hash
is `out_hash`:

* nothing happens when `cache_results` is off;
* otherwise, look for an existing copy of the output tree; publish the
  freshly computed tree when absent (`PutDirectory`); then record
  `computed/<signature>.txt -> out_hash` (`PutData`);
* a `GSDStorageError` raised by either write is logged
  (`'Failed to cache result.'`) and **re-raised** (`raise`), so it
  propagates to the caller. -/
def WriteResultToCache (cache_results : Bool) (storage : OnceStorage)
    (package build_signature out_hash : String) :
    Except GSDStorageError DirItem :=
  if !cache_results then .ok { name := "", hash_ := "", url := "" }
  else
    let output_key := KeyForOutput package out_hash
    match storage.getDirectory output_key with
    | none =>
      match storage.putDirectory output_key with
      | .error e => .error e
      | .ok dir_item =>
        match storage.putData out_hash (KeyForBuildSignature build_signature) with
        | .error e => .error e
        | .ok _ => .ok dir_item
    | some dir_item =>
      match storage.putData out_hash (KeyForBuildSignature build_signature) with
      | .error e => .error e
      | .ok _ => .ok dir_item

/-- The tail of `Once.Run` after the commands have executed
successfully (the memoized-read path missed, or `memoize` is off):
`if memoize: self.WriteResultToCache(package, build_signature, output)`.
`Run` installs no handler around that call, so any exception it raises
propagates out of `Run`. -/
def Run_after_commands (memoize cache_results : Bool) (storage : OnceStorage)
    (package build_signature out_hash : String) : Except GSDStorageError Unit :=
  if memoize then
    match WriteResultToCache cache_results storage package build_signature out_hash with
    | .error e => .error e
    | .ok _ => .ok ()
  else .ok ()

/-! ### `Once.BuildSignature` (once.py lines 287-320)

The digest is a sha1 over a stream of `update` calls.  We model the
digest by its preimage: the concatenation of the updated strings, in
order.  Two calls produce the same digest exactly when they produce the
same stream (sha1 collisions aside). -/

/-- Lexicographic comparison of character lists by code point: the
order Python's `sorted` applies to the input-name strings. -/
def charListLe : List Char → List Char → Bool
  | [], _ => true
  | _ :: _, [] => false
  | a :: as, b :: bs => if a = b then charListLe as bs else decide (a < b)

/-- Python's string order on the input names. -/
def pyStrLe (a b : String) : Prop := charListLe a.data b.data = true

instance : DecidableRel pyStrLe :=
  fun a b => inferInstanceAs (Decidable (charListLe a.data b.data = true))

/-- The list of strings fed to the hasher by `BuildSignature`, in
order: `'package:'+package`, `'summary:'+system_summary`, then
`'command:'` and `str(command)` for each command, then for each input
key in sorted order `'item_name:'+key+'\x00'` and the cached
`'item:'+StableHashPath(path)` value.  `inputs` is the `dict` of named
inputs as an association list; `pathHash` models
`pynacl.hashing_tools.StableHashPath` (memoized per path by
`_path_hash_cache`, hence a function of the path). -/
def buildSignatureUpdates (package system_summary : String) (commands : List String)
    (inputs : List (String × String)) (pathHash : String → String) : List String :=
  ["package:" ++ package, "summary:" ++ system_summary]
    ++ commands.map (fun c => "command:" ++ c)
    ++ (((inputs.map Prod.fst).insertionSort pyStrLe).flatMap
        (fun key => ["item_name:" ++ key ++ "\x00",
                     "item:" ++ pathHash ((inputs.lookup key).getD "")]))

/-- The sha1 preimage of `Once.BuildSignature`: concatenation of the
update stream. -/
def BuildSignature (package system_summary : String) (commands : List String)
    (inputs : List (String × String)) (pathHash : String → String) : String :=
  String.join (buildSignatureUpdates package system_summary commands inputs pathHash)

/-! ### The retrying URL helper (url_helper.py lines 24-103) -/

/-- What one attempt of `UrlOpen`'s loop observes: a successful read, an
`urllib2.HTTPError` (the server was reached and answered with an error
status — 4xx or 5xx), or an `urllib2.URLError` (transport failure). -/
inductive UrlAttemptOutcome where
  | success (response : String)
  | httpError (code : Nat)
  | urlError
  deriving DecidableEq, Repr

/-- The retry loop of `UrlOpen`: `for attempt in range(max_tries)` with

* `HTTPError` → log and `return None` immediately (the comment in the
  source: an HTTPError means we reached the server, so don't retry);
* `URLError` → sleep (backoff) and try again;
* a response → return it.

`attempt` is the current attempt number, `remaining` the number of
loop iterations left. -/
def UrlOpenLoop (outcomes : Nat → UrlAttemptOutcome) : Nat → Nat → Option String
  | _, 0 => none
  | attempt, remaining + 1 =>
    match outcomes attempt with
    | .success r => some r
    | .httpError _ => none
    | .urlError => UrlOpenLoop outcomes (attempt + 1) remaining

/-- `UrlOpen(url, data, max_tries, wait_duration, method)`: validates
`max_tries > 0`, a non-negative `wait_duration` (`None` and `0` pass
the truthy guard), and that `data` does not already contain the
attempt-count key; then runs the retry loop.  Exhausting the budget
returns `None`. -/
def UrlOpen (outcomes : Nat → UrlAttemptOutcome) (max_tries : Int)
    (wait_duration : Option ℚ) (count_key_in_data : Bool) : Option String :=
  if max_tries ≤ 0 then none
  else if (match wait_duration with
           | some w => decide (w ≠ 0 ∧ w < 0)
           | none => false) then none
  else if count_key_in_data then none
  else UrlOpenLoop outcomes 0 max_tries.toNat

/-! ### The polling delay of `retrieve_results` (swarming.py lines 374-401) -/

/-- The delay `retrieve_results` sleeps before a polling attempt, as a
function of the loop state: no sleep at all on the first attempt
(`if attempt > 1`); afterwards
`max_delay = min(15, 1 + (current_time - started) / 30.0)` and
`delay = min(max_delay, deadline - current_time) if deadline else
max_delay`.  (`should_stop.wait(delay)` is then called only when
`delay > 0`.)  Times are modelled as rationals. -/
def retrieve_results_delay (started current_time : ℚ) (deadline : Option ℚ)
    (attempt : Nat) : ℚ :=
  if attempt ≤ 1 then 0
  else
    let max_delay := min 15 (1 + (current_time - started) / 30)
    match deadline with
    | some d => min max_delay (d - current_time)
    | none => max_delay

/-- A concrete shard result used in counterexamples and witnesses. -/
def sampleResult (i : Int) (codes : String) : ShardResult :=
  { config_instance_index := .int i
    machine_id := "machine"
    machine_tag := "tag"
    exit_codes := codes
    output := "some output"
    output_files_location := none }

/-! ## Theorems -/

/-- C9: a `Manifest` is frozen once `isolate_item` has been evaluated:
`add_task` then hits the failed assertion (`none`) and the task list
cannot change; before materialization the assertion holds and
`add_task` appends the new `TestObject`. -/
theorem manifest_frozen_after_materialization (m : Manifest) (tn : String)
    (acts : List String) (tmo : Int) :
    (m.isolate_item_state.isSome → Manifest.add_task m tn acts tmo = none) ∧
    (m.isolate_item_state = none →
      Manifest.add_task m tn acts tmo = some { m with tasks := m.tasks ++
        [{ action := acts, decorate_output := m.verbose, test_name := tn,
           hard_time_out := tmo }] }) ∧
    (Manifest.isolate_item m).1.isolate_item_state.isSome ∧
    (∀ tn1 acts1 tmo1,
      Manifest.add_task (Manifest.isolate_item m).1 tn1 acts1 tmo1 = none) := by
  refine ⟨fun h => ?_, fun h => ?_, ?_, fun tn1 acts1 tmo1 => ?_⟩
  · simp [Manifest.add_task, h]
  · simp [Manifest.add_task, h]
  · unfold Manifest.isolate_item
    cases h : m.isolate_item_state <;> simp [h]
  · unfold Manifest.add_task Manifest.isolate_item
    cases h : m.isolate_item_state <;> simp [h]

/-- Witness for `manifest_frozen_after_materialization` at a concrete
manifest. -/
theorem manifest_frozen_after_materialization_witness :
    (Manifest.add_task
      (Manifest.isolate_item
        { bundle_zip := "zipdata", verbose := false,
          isolate_item_state := none, tasks := [] }).1
      "Run Test" ["python", "run_isolated.zip"] 7200 = none) ∧
    (Manifest.add_task
        { bundle_zip := "zipdata", verbose := false,
          isolate_item_state := none, tasks := [] }
      "Run Test" ["python", "run_isolated.zip"] 7200).isSome := by
  constructor
  · exact (manifest_frozen_after_materialization
      { bundle_zip := "zipdata", verbose := false,
        isolate_item_state := none, tasks := [] }
      "Run Test" ["python", "run_isolated.zip"] 7200).2.2.2
      "Run Test" ["python", "run_isolated.zip"] 7200
  · rw [(manifest_frozen_after_materialization
      { bundle_zip := "zipdata", verbose := false,
        isolate_item_state := none, tasks := [] }
      "Run Test" ["python", "run_isolated.zip"] 7200).2.1 rfl]
    rfl

/-- C3 counterexample: with `memoize=true`, `cache_results=true` and a
storage whose `PutData` raises `GSDStorageError`, the tail of
`Once.Run` after successful commands returns the error to its caller —
it does not return success. -/
theorem run_cache_write_failure_cex :
    Run_after_commands true true
      { getDirectory := fun _ => some { name := "o", hash_ := "h", url := "u" }
        putDirectory := fun _ => .ok { name := "o", hash_ := "h", url := "u" }
        putData := fun _ _ => .error { message := "upload failed" } }
      "pkg" "sig" "outhash"
      = .error { message := "upload failed" } ∧
    Run_after_commands true true
      { getDirectory := fun _ => some { name := "o", hash_ := "h", url := "u" }
        putDirectory := fun _ => .ok { name := "o", hash_ := "h", url := "u" }
        putData := fun _ _ => .error { message := "upload failed" } }
      "pkg" "sig" "outhash"
      ≠ .ok () := by
  constructor
  · rfl
  · intro h
    simp [Run_after_commands, WriteResultToCache] at h

/-- C3 amended: a `GSDStorageError` raised during the cache write of a
successful memoized run is re-raised by `WriteResultToCache`, and
`Once.Run` propagates it to its caller instead of returning success:
in particular a failing `PutData` of the `computed/<signature>.txt`
record surfaces out of `Run`. -/
theorem run_cache_write_failure_propagates (storage : OnceStorage)
    (package build_signature out_hash : String) (e : GSDStorageError)
    (hput : storage.putData out_hash (KeyForBuildSignature build_signature)
      = .error e) :
    (∀ d, storage.getDirectory (KeyForOutput package out_hash) = some d →
      Run_after_commands true true storage package build_signature out_hash
        = .error e) ∧
    (WriteResultToCache true storage package build_signature out_hash = .error e →
      Run_after_commands true true storage package build_signature out_hash
        ≠ .ok ()) := by
  constructor
  · intro d hd
    simp [Run_after_commands, WriteResultToCache, hd, hput]
  · intro hw
    simp [Run_after_commands, hw]

/-- The retry loop ignores a block of leading transport errors. -/
theorem UrlOpenLoop_skip_urlErrors (outcomes : Nat → UrlAttemptOutcome) :
    ∀ (k a remaining : Nat), k ≤ remaining →
    (∀ j, j < k → outcomes (a + j) = .urlError) →
    UrlOpenLoop outcomes a remaining = UrlOpenLoop outcomes (a + k) (remaining - k) := by
  intro k
  induction k with
  | zero => intro a remaining _ _; simp
  | succ n ih =>
    intro a remaining hk hj
    match remaining, hk with
    | m + 1, hk =>
      have h0 : outcomes a = .urlError := by simpa using hj 0 (Nat.succ_pos n)
      show UrlOpenLoop outcomes a (m + 1) = _
      rw [show UrlOpenLoop outcomes a (m + 1)
            = UrlOpenLoop outcomes (a + 1) m by simp [UrlOpenLoop, h0]]
      rw [ih (a + 1) m (Nat.lt_succ_iff.mp (Nat.lt_of_succ_le hk))
        (fun j hjn => by
          have := hj (j + 1) (Nat.succ_lt_succ hjn)
          simpa [Nat.add_assoc, Nat.add_comm 1 j] using this)]
      have h1 : a + 1 + n = a + (n + 1) := by omega
      have h2 : m - n = m + 1 - (n + 1) := by omega
      rw [h1, h2]

/-- If every attempt in the budget sees a transport error, the loop
exhausts the budget and returns `none`. -/
theorem UrlOpenLoop_exhausts (outcomes : Nat → UrlAttemptOutcome) :
    ∀ (remaining a : Nat), (∀ j, outcomes j = .urlError) →
    UrlOpenLoop outcomes a remaining = none := by
  intro remaining
  induction remaining with
  | zero => intro a _; rfl
  | succ n ih => intro a h; simp [UrlOpenLoop, h a, ih (a + 1) h]

/-- C5 counterexample: an HTTP 5xx response on the first attempt makes
`UrlOpen` fail immediately with `None`, even though the very next
attempt would have succeeded — HTTP 5xx is *not* retried. -/
theorem UrlOpen_5xx_not_retried_cex :
    UrlOpen (fun n => if n = 0 then .httpError 500 else .success "ok") 5 none false
      = none ∧
    (fun n => if n = 0 then .httpError 500 else .success "ok" : Nat → UrlAttemptOutcome) 1
      = .success "ok" := by
  exact ⟨rfl, rfl⟩

/-- C5 amended: in `UrlOpen` *any* `HTTPError` — 4xx or 5xx alike —
aborts immediately with `None` and is never retried; only
transport-level `URLError`s are retried, up to the attempt budget
(`max_tries`, default 5), after which the failure is surfaced as
`None`. -/
theorem UrlOpen_retry_semantics (outcomes : Nat → UrlAttemptOutcome)
    (max_tries : Int) (i : Nat) (code : Nat) (r : String)
    (hpos : 0 < max_tries) :
    ((i < max_tries.toNat → (∀ j, j < i → outcomes j = .urlError) →
      outcomes i = .httpError code →
      UrlOpen outcomes max_tries none false = none)) ∧
    ((∀ j, outcomes j = .urlError) →
      UrlOpen outcomes max_tries none false = none) ∧
    ((i < max_tries.toNat → (∀ j, j < i → outcomes j = .urlError) →
      outcomes i = .success r →
      UrlOpen outcomes max_tries none false = some r)) := by
  have hnot : ¬ max_tries ≤ 0 := not_le.mpr hpos
  refine ⟨fun hi hj hout => ?_, fun hall => ?_, fun hi hj hout => ?_⟩
  · simp only [UrlOpen, if_neg hnot]
    rw [UrlOpenLoop_skip_urlErrors outcomes i 0 max_tries.toNat (le_of_lt hi)
      (fun j hji => by simpa using hj j hji)]
    obtain ⟨m, hm⟩ : ∃ m, max_tries.toNat - i = m + 1 :=
      ⟨max_tries.toNat - i - 1, by omega⟩
    rw [hm]
    simp [UrlOpenLoop, hout]
  · simp only [UrlOpen, if_neg hnot]
    simp [UrlOpenLoop_exhausts outcomes max_tries.toNat 0 hall]
  · simp only [UrlOpen, if_neg hnot]
    rw [UrlOpenLoop_skip_urlErrors outcomes i 0 max_tries.toNat (le_of_lt hi)
      (fun j hji => by simpa using hj j hji)]
    obtain ⟨m, hm⟩ : ∃ m, max_tries.toNat - i = m + 1 :=
      ⟨max_tries.toNat - i - 1, by omega⟩
    rw [hm]
    simp [UrlOpenLoop, hout]

/-- Witness for `UrlOpen_retry_semantics`: two transport errors then a
success within a budget of 5. -/
theorem UrlOpen_retry_semantics_witness :
    UrlOpen
      (fun n => if n < 2 then .urlError else .success "response body")
      5 none false = some "response body" := by
  exact (UrlOpen_retry_semantics
    (fun n => if n < 2 then .urlError else .success "response body")
    5 2 404 "response body" (by decide)).2.2 (by decide)
    (by decide) (by decide)

/-- C8 counterexample: no delay at all is inserted before the *first*
polling attempt (`if attempt > 1` in the source), while the claimed
formula evaluates to `min(15, 1 + 0/30) = 1` second there. -/
theorem retrieve_results_delay_first_attempt_cex :
    retrieve_results_delay 0 0 none 1 = 0 ∧
    min (15 : ℚ) (1 + (0 - 0) / 30) = 1 ∧
    retrieve_results_delay 0 0 none 1 ≠ min (15 : ℚ) (1 + (0 - 0) / 30) := by
  refine ⟨rfl, by norm_num, ?_⟩
  rw [show retrieve_results_delay 0 0 none 1 = 0 from rfl]
  norm_num

/-- C8 amended: for every attempt *after the first* (the first attempt
polls immediately, with no delay), the delay equals
`min(15, 1 + elapsed_since_start / 30)`, further clamped not to exceed
the time remaining until the deadline when one is set; moreover, while
the deadline has not yet passed, the clamped delay is positive and
bounded by both the remaining time and 15 seconds. -/
theorem retrieve_results_delay_after_first (started current_time d : ℚ)
    (attempt : Nat) (h2 : 2 ≤ attempt) (helapsed : started ≤ current_time)
    (hdl : current_time < d) :
    retrieve_results_delay started current_time (some d) attempt
      = min (min 15 (1 + (current_time - started) / 30)) (d - current_time) ∧
    retrieve_results_delay started current_time none attempt
      = min 15 (1 + (current_time - started) / 30) ∧
    0 < retrieve_results_delay started current_time (some d) attempt ∧
    retrieve_results_delay started current_time (some d) attempt
      ≤ d - current_time ∧
    retrieve_results_delay started current_time (some d) attempt ≤ 15 := by
  have hnot : ¬ attempt ≤ 1 := by omega
  have hform : retrieve_results_delay started current_time (some d) attempt
      = min (min 15 (1 + (current_time - started) / 30)) (d - current_time) := by
    simp [retrieve_results_delay, hnot]
  refine ⟨hform, by simp [retrieve_results_delay, hnot], ?_, ?_, ?_⟩
  · rw [hform]
    have h15 : (0:ℚ) < 15 := by norm_num
    have hmd : (0:ℚ) < 1 + (current_time - started) / 30 := by
      have : (0:ℚ) ≤ (current_time - started) / 30 := by
        apply div_nonneg (by linarith) (by norm_num)
      linarith
    exact lt_min (lt_min h15 hmd) (by linarith)
  · rw [hform]; exact min_le_right _ _
  · rw [hform]
    exact le_trans (min_le_left _ _) (min_le_left _ _)

/-- Witness for `retrieve_results_delay_after_first`: second attempt,
thirty seconds elapsed, deadline ten seconds away. -/
theorem retrieve_results_delay_after_first_witness :
    retrieve_results_delay 0 30 (some 40) 2 = min (min 15 (1 + (30 - 0) / 30)) (40 - 30) := by
  exact (retrieve_results_delay_after_first 0 30 40 2 (by decide) (by decide)
    (by decide)).1

/-- Looking a key up after appending one binding: the old bindings win;
the new binding is found only when the key was absent. -/
theorem lookup_append_single {α β : Type} [BEq α] [LawfulBEq α] [DecidableEq α]
    (l : List (α × β)) (k j : α) (v : β) :
    (l ++ [(j, v)]).lookup k =
      match l.lookup k with
      | some w => some w
      | none => if k = j then some v else none := by
  induction l with
  | nil =>
    by_cases h : k = j
    · simp [List.lookup, h]
    · have hb : (k == j) = false := beq_false_of_ne h
      simp [List.lookup, hb, h]
  | cons p rest ih =>
    rcases p with ⟨a, b⟩
    by_cases h : k = a
    · simp [List.lookup, h]
    · have hb : (k == a) = false := beq_false_of_ne h
      simp [List.lookup, hb, ih]

/-- `_get_storage` never touches the result map, the shard count or the
task name. -/
theorem get_storage_fields (st : CollectorState) (server ns : String) :
    ((get_storage st server ns).1).per_shard_results = st.per_shard_results ∧
    ((get_storage st server ns).1).shard_count = st.shard_count ∧
    ((get_storage st server ns).1).task_name = st.task_name := by
  unfold get_storage
  cases h : st.storage with
  | none => simp
  | some p =>
    rcases p with ⟨loc, ns0⟩
    by_cases h1 : loc ≠ server
    · simp [h1]
    · by_cases h2 : ns0 ≠ ns <;> simp [h1, h2]

/-- `process_shard_result` raises `ValueError` on a non-integer shard
index. -/
theorem process_nonint_raises (st : CollectorState) (r : ShardResult) (s : String)
    (hidx : r.config_instance_index = .str s) :
    process_shard_result st r = .error "Shard index should be an int" := by
  simp [process_shard_result, hidx]

/-- `process_shard_result` on an integer index outside
`[0, shard_count)`: warning only — no store, no fetch, state unchanged. -/
theorem process_out_of_range (st : CollectorState) (r : ShardResult) (i : Int)
    (hidx : r.config_instance_index = .int i)
    (hr : i < 0 ∨ (st.shard_count : Int) ≤ i) :
    process_shard_result st r = .ok (st, none) := by
  simp [process_shard_result, hidx, hr]

/-- `process_shard_result` on a duplicate shard index: warning only —
no store, no fetch, state unchanged. -/
theorem process_duplicate (st : CollectorState) (r : ShardResult) (i : Int)
    (hidx : r.config_instance_index = .int i)
    (h0 : 0 ≤ i) (hlt : i < (st.shard_count : Int))
    (hdup : (st.per_shard_results.lookup i.toNat).isSome) :
    process_shard_result st r = .ok (st, none) := by
  have hr : ¬ (i < 0 ∨ (st.shard_count : Int) ≤ i) := by omega
  simp [process_shard_result, hidx, hr, hdup]

/-- `process_shard_result` on a fresh in-range index with no output
marker: the result is stored and nothing is fetched. -/
theorem process_store_no_marker (st : CollectorState) (r : ShardResult) (i : Int)
    (hidx : r.config_instance_index = .int i)
    (h0 : 0 ≤ i) (hlt : i < (st.shard_count : Int))
    (hnew : st.per_shard_results.lookup i.toNat = none)
    (hloc : r.output_files_location = none) :
    process_shard_result st r
      = .ok ({ st with per_shard_results := st.per_shard_results ++ [(i.toNat, r)] },
             none) := by
  have hr : ¬ (i < 0 ∨ (st.shard_count : Int) ≤ i) := by omega
  simp [process_shard_result, hidx, hr, hnew, hloc]

/-- `process_shard_result` on a fresh in-range index whose marker names
`(server, ns)` while no storage handle exists yet: the result is
stored, the handle is fixed to `(server, ns)` and a fetch is issued. -/
theorem process_store_first_marker (st : CollectorState) (r : ShardResult) (i : Int)
    (server ns hash_ : String)
    (hidx : r.config_instance_index = .int i)
    (h0 : 0 ≤ i) (hlt : i < (st.shard_count : Int))
    (hnew : st.per_shard_results.lookup i.toNat = none)
    (hloc : r.output_files_location = some (server, ns, hash_))
    (hsto : st.storage = none) :
    process_shard_result st r
      = .ok ({ st with per_shard_results := st.per_shard_results ++ [(i.toNat, r)],
                       storage := some (server, ns) },
             some ⟨server, ns, hash_, i.toNat⟩) := by
  have hr : ¬ (i < 0 ∨ (st.shard_count : Int) ≤ i) := by omega
  simp [process_shard_result, get_storage, hidx, hr, hnew, hloc, hsto]

/-- `process_shard_result` on a fresh in-range index whose marker names
the same `(server, ns)` the storage handle already uses: the result is
stored and a fetch is issued. -/
theorem process_store_matching_marker (st : CollectorState) (r : ShardResult)
    (i : Int) (server ns hash_ : String)
    (hidx : r.config_instance_index = .int i)
    (h0 : 0 ≤ i) (hlt : i < (st.shard_count : Int))
    (hnew : st.per_shard_results.lookup i.toNat = none)
    (hloc : r.output_files_location = some (server, ns, hash_))
    (hsto : st.storage = some (server, ns)) :
    process_shard_result st r
      = .ok ({ st with per_shard_results := st.per_shard_results ++ [(i.toNat, r)] },
             some ⟨server, ns, hash_, i.toNat⟩) := by
  have hr : ¬ (i < 0 ∨ (st.shard_count : Int) ≤ i) := by omega
  simp [process_shard_result, get_storage, hidx, hr, hnew, hloc, hsto]

/-- `process_shard_result` on a fresh in-range index whose marker names
a `(server, ns)` different from the already-fixed storage handle: the
result dict is still recorded, but `_get_storage` returns `none` and no
fetch is issued (the handle keeps its original value). -/
theorem process_store_divergent_marker (st : CollectorState) (r : ShardResult)
    (i : Int) (server ns hash_ loc0 ns0 : String)
    (hidx : r.config_instance_index = .int i)
    (h0 : 0 ≤ i) (hlt : i < (st.shard_count : Int))
    (hnew : st.per_shard_results.lookup i.toNat = none)
    (hloc : r.output_files_location = some (server, ns, hash_))
    (hsto : st.storage = some (loc0, ns0))
    (hdiv : loc0 ≠ server ∨ ns0 ≠ ns) :
    process_shard_result st r
      = .ok ({ st with per_shard_results := st.per_shard_results ++ [(i.toNat, r)] },
             none) := by
  have hr : ¬ (i < 0 ∨ (st.shard_count : Int) ≤ i) := by omega
  rcases hdiv with hdiv | hdiv
  · simp [process_shard_result, get_storage, hidx, hr, hnew, hloc, hsto, hdiv]
  · by_cases hls : loc0 = server
    · simp [process_shard_result, get_storage, hidx, hr, hnew, hloc, hsto, hls, hdiv]
    · simp [process_shard_result, get_storage, hidx, hr, hnew, hloc, hsto, hls]

/-- A step whose call returned the state unchanged (or raised) leaves
the collector state untouched. -/
theorem process_step_unchanged (st : CollectorState) (r : ShardResult)
    (h : process_shard_result st r = .ok (st, none) ∨
      ∃ e, process_shard_result st r = .error e) :
    process_step st r = st := by
  unfold process_step
  rcases h with h | ⟨e, h⟩ <;> rw [h]

/-- A step on a fresh in-range integer index stores exactly that
binding, whatever the output marker and storage handle say, and never
touches the shard count or task name. -/
theorem process_step_fresh (st : CollectorState) (r : ShardResult) (j : Int)
    (hidx : r.config_instance_index = .int j)
    (h0 : 0 ≤ j) (hlt : j < (st.shard_count : Int))
    (hnew : st.per_shard_results.lookup j.toNat = none) :
    (process_step st r).shard_count = st.shard_count ∧
    (process_step st r).task_name = st.task_name ∧
    (process_step st r).per_shard_results
      = st.per_shard_results ++ [(j.toNat, r)] := by
  unfold process_step
  cases hloc : r.output_files_location with
  | none =>
    rw [process_store_no_marker st r j hidx h0 hlt hnew hloc]
    exact ⟨rfl, rfl, rfl⟩
  | some t =>
    rcases t with ⟨server, ns, hash_⟩
    cases hsto : st.storage with
    | none =>
      rw [process_store_first_marker st r j server ns hash_ hidx h0 hlt hnew hloc hsto]
      exact ⟨rfl, rfl, rfl⟩
    | some p =>
      rcases p with ⟨loc0, ns0⟩
      by_cases hd : loc0 = server ∧ ns0 = ns
      · rcases hd with ⟨hd1, hd2⟩
        subst hd1; subst hd2
        rw [process_store_matching_marker st r j loc0 ns0 hash_ hidx h0 hlt hnew
          hloc hsto]
        exact ⟨rfl, rfl, rfl⟩
      · have hdiv : loc0 ≠ server ∨ ns0 ≠ ns := by tauto
        rw [process_store_divergent_marker st r j server ns hash_ loc0 ns0 hidx h0
          hlt hnew hloc hsto hdiv]
        exact ⟨rfl, rfl, rfl⟩

/-- One collector step never changes the shard count or the task name,
and either leaves the result map unchanged or — exactly when the
incoming result carries a fresh integer index in range — appends that
one binding. -/
theorem process_step_shape (st : CollectorState) (r : ShardResult) :
    (process_step st r).shard_count = st.shard_count ∧
    (process_step st r).task_name = st.task_name ∧
    ((process_step st r).per_shard_results = st.per_shard_results ∨
      (∃ j : Int, r.config_instance_index = .int j ∧ 0 ≤ j ∧
        j < (st.shard_count : Int) ∧
        (process_step st r).per_shard_results
          = st.per_shard_results ++ [(j.toNat, r)])) := by
  cases hidx : r.config_instance_index with
  | str s =>
    rw [process_step_unchanged st r (Or.inr ⟨_, process_nonint_raises st r s hidx⟩)]
    exact ⟨rfl, rfl, Or.inl rfl⟩
  | int j =>
    by_cases hr : j < 0 ∨ (st.shard_count : Int) ≤ j
    · rw [process_step_unchanged st r (Or.inl (process_out_of_range st r j hidx hr))]
      exact ⟨rfl, rfl, Or.inl rfl⟩
    · have h0 : 0 ≤ j := by omega
      have hlt : j < (st.shard_count : Int) := by omega
      by_cases hdup : (st.per_shard_results.lookup j.toNat).isSome
      · rw [process_step_unchanged st r
          (Or.inl (process_duplicate st r j hidx h0 hlt hdup))]
        exact ⟨rfl, rfl, Or.inl rfl⟩
      · have hnew := Option.not_isSome_iff_eq_none.mp hdup
        have hf := process_step_fresh st r j hidx h0 hlt hnew
        exact ⟨hf.1, hf.2.1, Or.inr ⟨j, rfl, h0, hlt, hf.2.2⟩⟩

/-- What one collector step does to the lookup of a fixed in-range
index `i`: an already-stored result stays; otherwise the incoming
result is stored there exactly when its index is `i`. -/
theorem process_step_lookup (st : CollectorState) (r : ShardResult) (i : Nat)
    (hi : i < st.shard_count) :
    (process_step st r).per_shard_results.lookup i =
      match st.per_shard_results.lookup i with
      | some v => some v
      | none =>
        if r.config_instance_index = PyVal.int (i : Int) then some r else none := by
  cases hidx : r.config_instance_index with
  | str s =>
    rw [process_step_unchanged st r (Or.inr ⟨_, process_nonint_raises st r s hidx⟩)]
    cases hl : st.per_shard_results.lookup i <;> simp [hl]
  | int j =>
    by_cases hr : j < 0 ∨ (st.shard_count : Int) ≤ j
    · rw [process_step_unchanged st r (Or.inl (process_out_of_range st r j hidx hr))]
      have hne : ¬ (PyVal.int j = PyVal.int (i : Int)) := by
        simp only [PyVal.int.injEq]
        omega
      cases hl : st.per_shard_results.lookup i <;> simp [hl, hne]
    · have h0 : 0 ≤ j := by omega
      have hlt : j < (st.shard_count : Int) := by omega
      by_cases hdup : (st.per_shard_results.lookup j.toNat).isSome
      · rw [process_step_unchanged st r
          (Or.inl (process_duplicate st r j hidx h0 hlt hdup))]
        cases hl : st.per_shard_results.lookup i with
        | some v => simp [hl]
        | none =>
          have hne : ¬ (PyVal.int j = PyVal.int (i : Int)) := by
            simp only [PyVal.int.injEq]
            intro hji
            have : j.toNat = i := by omega
            rw [this, hl] at hdup
            simp at hdup
          simp [hl, hne]
      · have hnew := Option.not_isSome_iff_eq_none.mp hdup
        rw [(process_step_fresh st r j hidx h0 hlt hnew).2.2,
          lookup_append_single st.per_shard_results i j.toNat r]
        cases hl : st.per_shard_results.lookup i with
        | some v => simp [hl]
        | none =>
          by_cases hc : i = j.toNat
          · have : PyVal.int j = PyVal.int (i : Int) := by
              simp only [PyVal.int.injEq]
              omega
            simp [hl, hc, this]
          · have hne : ¬ (PyVal.int j = PyVal.int (i : Int)) := by
              simp only [PyVal.int.injEq]
              omega
            simp [hl, hc, hne]

/-- `process_all` preserves the shard count and task name. -/
theorem process_all_fields (rs : List ShardResult) :
    ∀ st : CollectorState,
    (process_all st rs).shard_count = st.shard_count ∧
    (process_all st rs).task_name = st.task_name := by
  induction rs with
  | nil => intro st; exact ⟨rfl, rfl⟩
  | cons r rest ih =>
    intro st
    have hs := process_step_shape st r
    have := ih (process_step st r)
    exact ⟨by rw [process_all, List.foldl_cons, ← process_all, this.1, hs.1],
           by rw [process_all, List.foldl_cons, ← process_all, this.2, hs.2.1]⟩

/-- Over a whole run, the lookup of an in-range index `i` resolves to
the first delivered result whose `config_instance_index` is `i`, unless
something was already stored there. -/
theorem process_all_lookup (rs : List ShardResult) :
    ∀ (st : CollectorState) (i : Nat), i < st.shard_count →
    (process_all st rs).per_shard_results.lookup i =
      match st.per_shard_results.lookup i with
      | some v => some v
      | none =>
        (rs.filter (fun r =>
          decide (r.config_instance_index = PyVal.int (i : Int)))).head? := by
  induction rs with
  | nil =>
    intro st i _
    cases hl : st.per_shard_results.lookup i <;> simp [process_all, hl]
  | cons r rest ih =>
    intro st i hi
    have hstep := process_step_lookup st r i hi
    have hcount : i < (process_step st r).shard_count := by
      rw [(process_step_shape st r).1]; exact hi
    rw [process_all, List.foldl_cons, ← process_all, ih (process_step st r) i hcount,
      hstep]
    by_cases hc : r.config_instance_index = PyVal.int (i : Int)
    · cases hl : st.per_shard_results.lookup i <;> simp [hl, hc]
    · cases hl : st.per_shard_results.lookup i <;> simp [hl, hc]

/-- Keys of the result map stay below the shard count across a run. -/
theorem process_all_keys_bounded (rs : List ShardResult) :
    ∀ st : CollectorState,
    (∀ k ∈ st.per_shard_results.map Prod.fst, k < st.shard_count) →
    ∀ k ∈ (process_all st rs).per_shard_results.map Prod.fst, k < st.shard_count := by
  induction rs with
  | nil =>
    intro st h
    simpa [process_all] using h
  | cons r rest ih =>
    intro st h
    have hs := process_step_shape st r
    have hinv : ∀ k ∈ (process_step st r).per_shard_results.map Prod.fst,
        k < (process_step st r).shard_count := by
      rw [hs.1]
      rcases hs.2.2 with hm | ⟨j, _, h0, hlt, hm⟩
      · rw [hm]; exact h
      · rw [hm]
        intro k hk
        rw [List.map_append, List.mem_append] at hk
        rcases hk with hk | hk
        · exact h k hk
        · simp only [List.map_cons, List.map_nil, List.mem_singleton] at hk
          subst hk
          omega
    intro k hk
    have hmem : k ∈ (process_all (process_step st r) rest).per_shard_results.map
        Prod.fst := by
      simpa [process_all, List.foldl_cons] using hk
    have := ih (process_step st r) hinv k hmem
    rwa [hs.1] at this

/-- C10: `process_shard_result` raises `ValueError` on a non-integer
`config_instance_index`; an integer index outside `[0, shard_count)`
is logged and dropped without storing or fetching; consequently every
key the per-shard result map ever holds over a run — and hence every
populated position of `summary.json`'s shards array — lies in
`[0, shard_count)`. -/
theorem process_shard_result_index_validation (st : CollectorState)
    (r : ShardResult) (s : String) (i : Int) (task_name : String) (count : Nat)
    (rs : List ShardResult) :
    (r.config_instance_index = .str s →
      process_shard_result st r = .error "Shard index should be an int") ∧
    (r.config_instance_index = .int i → i < 0 ∨ (st.shard_count : Int) ≤ i →
      process_shard_result st r = .ok (st, none)) ∧
    (∀ k ∈ (process_all (init_collector task_name count) rs).per_shard_results.map
        Prod.fst, k < count) := by
  refine ⟨fun h => process_nonint_raises st r s h,
          fun h hr => process_out_of_range st r i h hr,
          fun k hk => ?_⟩
  exact process_all_keys_bounded rs (init_collector task_name count)
    (by simp [init_collector]) k hk

/-- Witness for `process_shard_result_index_validation`: a result with
a string index raises; index 7 with 2 shards is dropped; a run over two
results populates only in-range keys. -/
theorem process_shard_result_index_validation_witness :
    process_shard_result (init_collector "t" 2)
      { sampleResult 0 "0" with config_instance_index := .str "x" }
      = .error "Shard index should be an int" ∧
    process_shard_result (init_collector "t" 2) (sampleResult 7 "0")
      = .ok (init_collector "t" 2, none) := by
  have h := process_shard_result_index_validation (init_collector "t" 2)
    { sampleResult 0 "0" with config_instance_index := .str "x" } "x" 7 "t" 2 []
  have h2 := process_shard_result_index_validation (init_collector "t" 2)
    (sampleResult 7 "0") "x" 7 "t" 2 []
  exact ⟨h.1 rfl, h2.2.1 rfl (by decide)⟩

/-- C6: all shards of a task must use one `(store_url, namespace)`
pair.  The first shard presenting a marker fixes the storage handle and
gets its files fetched; a later shard whose marker diverges in either
component is still recorded in the result map, but `_get_storage`
returns `none` and no fetch is issued for it; a later shard whose
marker matches is fetched normally. -/
theorem shard_storage_consistency (st : CollectorState) (r : ShardResult)
    (i : Int) (server ns hash_ : String)
    (hidx : r.config_instance_index = .int i)
    (h0 : 0 ≤ i) (hlt : i < (st.shard_count : Int))
    (hnew : st.per_shard_results.lookup i.toNat = none)
    (hloc : r.output_files_location = some (server, ns, hash_)) :
    (∀ loc0 ns0, st.storage = some (loc0, ns0) → loc0 ≠ server ∨ ns0 ≠ ns →
      process_shard_result st r
        = .ok ({ st with
            per_shard_results := st.per_shard_results ++ [(i.toNat, r)] }, none)) ∧
    (st.storage = none →
      process_shard_result st r
        = .ok ({ st with
            per_shard_results := st.per_shard_results ++ [(i.toNat, r)],
            storage := some (server, ns) },
          some ⟨server, ns, hash_, i.toNat⟩)) ∧
    (st.storage = some (server, ns) →
      process_shard_result st r
        = .ok ({ st with
            per_shard_results := st.per_shard_results ++ [(i.toNat, r)] },
          some ⟨server, ns, hash_, i.toNat⟩)) := by
  exact ⟨fun loc0 ns0 hsto hdiv =>
      process_store_divergent_marker st r i server ns hash_ loc0 ns0 hidx h0 hlt
        hnew hloc hsto hdiv,
    fun hsto =>
      process_store_first_marker st r i server ns hash_ hidx h0 hlt hnew hloc hsto,
    fun hsto =>
      process_store_matching_marker st r i server ns hash_ hidx h0 hlt hnew hloc
        hsto⟩

/-- Witness for `shard_storage_consistency`: shard 0 fixes
`(https://a, ns1)`; shard 1's divergent marker `(https://b, ns1)` is
recorded but not fetched. -/
theorem shard_storage_consistency_witness :
    process_shard_result
      { shard_count := 2, task_name := "t",
        per_shard_results := [(0, sampleResult 0 "0")],
        storage := some ("https://a", "ns1") }
      { sampleResult 1 "0" with
        output_files_location := some ("https://b", "ns1", "beef") }
      = .ok ({ shard_count := 2, task_name := "t",
               per_shard_results := [(0, sampleResult 0 "0"),
                 (1, { sampleResult 1 "0" with
                   output_files_location := some ("https://b", "ns1", "beef") })],
               storage := some ("https://a", "ns1") }, none) := by
  exact (shard_storage_consistency
    { shard_count := 2, task_name := "t",
      per_shard_results := [(0, sampleResult 0 "0")],
      storage := some ("https://a", "ns1") }
    { sampleResult 1 "0" with
      output_files_location := some ("https://b", "ns1", "beef") }
    1 "https://b" "ns1" "beef" rfl (by decide) (by decide) (by decide) rfl).1
    "https://a" "ns1" rfl (Or.inl (by decide))

/-- C4: for every shard count and every processed sequence of results,
`finalize` writes `summary.json` as `{task_name, shards}` where
`shards` has length exactly `shard_count`, and position `i` holds the
first delivered result whose index is `i` — the one that was recorded —
or `null` when none arrived. -/
theorem summary_json_layout (task_name : String) (count : Nat)
    (rs : List ShardResult) (i : Nat) (hi : i < count) :
    (finalize (process_all (init_collector task_name count) rs)).task_name
      = task_name ∧
    (finalize (process_all (init_collector task_name count) rs)).shards.length
      = count ∧
    (finalize (process_all (init_collector task_name count) rs)).shards.get? i
      = some ((rs.filter (fun r =>
          decide (r.config_instance_index = PyVal.int (i : Int)))).head?) := by
  have hf := process_all_fields rs (init_collector task_name count)
  have hcount : (process_all (init_collector task_name count) rs).shard_count
      = count := hf.1
  refine ⟨hf.2, by simp [finalize, hcount], ?_⟩
  have hlook := process_all_lookup rs (init_collector task_name count) i
    (by simpa [init_collector] using hi)
  have hnil : (init_collector task_name count).per_shard_results.lookup i
      = none := rfl
  rw [hnil] at hlook
  rw [show (finalize (process_all (init_collector task_name count) rs)).shards
      = (List.range
          (process_all (init_collector task_name count) rs).shard_count).map
          (fun k => (process_all (init_collector task_name count)
            rs).per_shard_results.lookup k) from rfl,
    List.get?_map, hcount, List.get?_range hi]
  exact congrArg some hlook

/-- Witness for `summary_json_layout`: two shards, shard 1 reported
twice — position 1 holds the first delivery, position 0 is `null`. -/
theorem summary_json_layout_witness :
    (finalize (process_all (init_collector "task" 2)
        [sampleResult 1 "0", sampleResult 1 "5"])).shards.get? 1
      = some (some (sampleResult 1 "0")) := by
  have h := summary_json_layout "task" 2 [sampleResult 1 "0", sampleResult 1 "5"]
    1 (by decide)
  rw [h.2.2]
  decide

/-- Invariants of the `yield_results` consumer loop, by induction over
the pulled sequence: every yielded index was still outstanding; yielded
indices are pairwise distinct; each yielded result is the first pulled
result carrying its index; and every outstanding index that appears in
the pulled sequence gets yielded. -/
theorem yield_go_spec (pulled : List (Option ShardResult)) :
    ∀ remaining : List Int, remaining.Nodup →
    (∀ p ∈ yield_results_go remaining pulled, p.1 ∈ remaining) ∧
    ((yield_results_go remaining pulled).map Prod.fst).Nodup ∧
    (∀ p ∈ yield_results_go remaining pulled,
      first_result_with_index pulled p.1 = some p.2) ∧
    (∀ i ∈ remaining,
      (∃ s ∈ pulled.filterMap id, s.config_instance_index = PyVal.int i) →
      ∃ r, (i, r) ∈ yield_results_go remaining pulled) := by
  induction pulled with
  | nil =>
    intro remaining hnd
    refine ⟨?_, ?_, ?_, ?_⟩ <;> simp [yield_results_go]
  | cons o rest ih =>
    intro remaining hnd
    cases o with
    | none =>
      have H := ih remaining hnd
      refine ⟨fun p hp => H.1 p (by simpa [yield_results_go] using hp),
        by simpa [yield_results_go] using H.2.1,
        fun p hp => ?_, fun i hi hex => ?_⟩
      · have := H.2.2.1 p (by simpa [yield_results_go] using hp)
        simpa [first_result_with_index] using this
      · have hex2 : ∃ s ∈ rest.filterMap id,
            s.config_instance_index = PyVal.int i := by
          simpa using hex
        obtain ⟨r, hr⟩ := H.2.2.2 i hi hex2
        exact ⟨r, by simpa [yield_results_go] using hr⟩
    | some r =>
      cases hidx : r.config_instance_index with
      | str s =>
        have H := ih remaining hnd
        have hgo : yield_results_go remaining (some r :: rest)
            = yield_results_go remaining rest := by
          simp [yield_results_go, hidx]
        refine ⟨fun p hp => H.1 p (by rwa [hgo] at hp),
          by rw [hgo]; exact H.2.1, fun p hp => ?_, fun i hi hex => ?_⟩
        · rw [hgo] at hp
          have hne : ¬ (r.config_instance_index = PyVal.int p.1) := by
            simp [hidx]
          have := H.2.2.1 p hp
          simpa [first_result_with_index, hne] using this
        · have hex2 : ∃ s ∈ rest.filterMap id,
              s.config_instance_index = PyVal.int i := by
            rcases hex with ⟨s0, hs0, hs0i⟩
            rcases (by simpa using hs0 :
              s0 = r ∨ s0 ∈ rest.filterMap id) with h | h
            · subst h; rw [hidx] at hs0i; cases hs0i
            · exact ⟨s0, h, hs0i⟩
          obtain ⟨r1, hr1⟩ := H.2.2.2 i hi hex2
          exact ⟨r1, by rwa [hgo]⟩
      | int j =>
        by_cases hj : j ∈ remaining
        · have H := ih (remaining.erase j) (hnd.erase j)
          have hgo : yield_results_go remaining (some r :: rest)
              = (j, r) :: yield_results_go (remaining.erase j) rest := by
            simp [yield_results_go, hidx, hj]
          refine ⟨fun p hp => ?_, ?_, fun p hp => ?_, fun i hi hex => ?_⟩
          · rw [hgo] at hp
            rcases List.mem_cons.mp hp with h | h
            · subst h; exact hj
            · exact List.mem_of_mem_erase (H.1 p h)
          · rw [hgo]
            simp only [List.map_cons, List.nodup_cons]
            refine ⟨fun hmem => ?_, H.2.1⟩
            rcases List.mem_map.mp hmem with ⟨p, hp, hp1⟩
            have : p.1 ∈ remaining.erase j := H.1 p hp
            rw [hp1] at this
            exact (List.Nodup.mem_erase_iff hnd).mp this |>.1 rfl
          · rw [hgo] at hp
            rcases List.mem_cons.mp hp with h | h
            · subst h
              simp [first_result_with_index, hidx]
            · have hp1 : p.1 ∈ remaining.erase j := H.1 p h
              have hpj : p.1 ≠ j := ((List.Nodup.mem_erase_iff hnd).mp hp1).1
              have hne : ¬ (r.config_instance_index = PyVal.int p.1) := by
                simp [hidx]
                omega
              have := H.2.2.1 p h
              simpa [first_result_with_index, hne] using this
          · by_cases hij : i = j
            · subst hij
              exact ⟨r, by rw [hgo]; exact List.mem_cons_self _ _⟩
            · have hi2 : i ∈ remaining.erase j :=
                (List.Nodup.mem_erase_iff hnd).mpr ⟨hij, hi⟩
              have hex2 : ∃ s ∈ rest.filterMap id,
                  s.config_instance_index = PyVal.int i := by
                rcases hex with ⟨s0, hs0, hs0i⟩
                rcases (by simpa using hs0 :
                  s0 = r ∨ s0 ∈ rest.filterMap id) with h | h
                · subst h
                  rw [hidx] at hs0i
                  exact absurd (PyVal.int.injEq j i ▸ hs0i) (by
                    intro hh
                    exact hij (by omega))
                · exact ⟨s0, h, hs0i⟩
              obtain ⟨r1, hr1⟩ := H.2.2.2 i hi2 hex2
              exact ⟨r1, by rw [hgo]; exact List.mem_cons_of_mem _ hr1⟩
        · have H := ih remaining hnd
          have hgo : yield_results_go remaining (some r :: rest)
              = yield_results_go remaining rest := by
            simp [yield_results_go, hidx, hj]
          refine ⟨fun p hp => H.1 p (by rwa [hgo] at hp),
            by rw [hgo]; exact H.2.1, fun p hp => ?_, fun i hi hex => ?_⟩
          · rw [hgo] at hp
            have hp1 : p.1 ∈ remaining := H.1 p hp
            have hpj : p.1 ≠ j := fun h => hj (h ▸ hp1)
            have hne : ¬ (r.config_instance_index = PyVal.int p.1) := by
              simp [hidx]
              omega
            have := H.2.2.1 p hp
            simpa [first_result_with_index, hne] using this
          · have hij : i ≠ j := fun h => hj (h ▸ hi)
            have hex2 : ∃ s ∈ rest.filterMap id,
                s.config_instance_index = PyVal.int i := by
              rcases hex with ⟨s0, hs0, hs0i⟩
              rcases (by simpa using hs0 :
                s0 = r ∨ s0 ∈ rest.filterMap id) with h | h
              · subst h
                rw [hidx] at hs0i
                exact absurd (PyVal.int.injEq j i ▸ hs0i) (by
                  intro hh
                  exact hij (by omega))
              · exact ⟨s0, h, hs0i⟩
            obtain ⟨r1, hr1⟩ := H.2.2.2 i hi hex2
            exact ⟨r1, by rwa [hgo]⟩

/-- C2: duplicate-shard suppression.  Over any pulled sequence,
`yield_results` yields pairwise-distinct indices; each yielded pair
carries the *first* result received for its index (so a duplicated
index is yielded exactly once); any in-range index that appears among
the delivered results is yielded.  Likewise
`TaskOutputCollector.process_shard_result` returns without storing or
fetching on a duplicate index, and stores the result precisely when the
index is fresh. -/
theorem duplicate_shard_suppression (num_keys : Nat)
    (pulled : List (Option ShardResult)) :
    ((yield_results_run num_keys pulled).map Prod.fst).Nodup ∧
    (∀ p ∈ yield_results_run num_keys pulled,
      first_result_with_index pulled p.1 = some p.2) ∧
    (∀ i : Int, 0 ≤ i → i < (num_keys : Int) →
      (∃ s ∈ pulled.filterMap id, s.config_instance_index = PyVal.int i) →
      ∃ r, (i, r) ∈ yield_results_run num_keys pulled) ∧
    (∀ (st : CollectorState) (r : ShardResult) (i : Int),
      r.config_instance_index = .int i → 0 ≤ i → i < (st.shard_count : Int) →
      (st.per_shard_results.lookup i.toNat).isSome →
      process_shard_result st r = .ok (st, none)) ∧
    (∀ (st : CollectorState) (r : ShardResult) (i : Int),
      r.config_instance_index = .int i → 0 ≤ i → i < (st.shard_count : Int) →
      st.per_shard_results.lookup i.toNat = none →
      (process_step st r).per_shard_results
        = st.per_shard_results ++ [(i.toNat, r)]) := by
  have hnd : ((List.range num_keys).map Int.ofNat).Nodup :=
    (List.nodup_range num_keys).map (fun a b h => Int.ofNat.inj h)
  have H := yield_go_spec pulled ((List.range num_keys).map Int.ofNat) hnd
  refine ⟨H.2.1, H.2.2.1, fun i h0 hlt hex => ?_,
    fun st r i hidx h0 hlt hdup => process_duplicate st r i hidx h0 hlt hdup,
    fun st r i hidx h0 hlt hnew =>
      (process_step_fresh st r i hidx h0 hlt hnew).2.2⟩
  refine H.2.2.2 i ?_ hex
  refine List.mem_map.mpr ⟨i.toNat, List.mem_range.mpr (by omega), ?_⟩
  simpa using Int.toNat_of_nonneg h0

/-- Witness for `duplicate_shard_suppression`: shard 0 delivered twice;
the first delivery is the one associated with index 0, and the
collector ignores the second. -/
theorem duplicate_shard_suppression_witness :
    first_result_with_index
      [some (sampleResult 0 "0"), some (sampleResult 0 "5")] 0
      = some (sampleResult 0 "0") ∧
    process_shard_result
      { shard_count := 2, task_name := "t",
        per_shard_results := [(0, sampleResult 0 "0")], storage := none }
      (sampleResult 0 "5")
      = .ok ({ shard_count := 2, task_name := "t",
               per_shard_results := [(0, sampleResult 0 "0")],
               storage := none }, none) := by
  have h := duplicate_shard_suppression 2
    [some (sampleResult 0 "0"), some (sampleResult 0 "5")]
  constructor
  · exact h.2.1 (0, sampleResult 0 "0") (by decide)
  · exact h.2.2.2.1
      { shard_count := 2, task_name := "t",
        per_shard_results := [(0, sampleResult 0 "0")], storage := none }
      (sampleResult 0 "5") 0 rfl (by decide) (by decide) (by decide)

/-- The fold in `collect` splits into the set of seen indices and the
`or`-accumulated exit code. -/
theorem collect_foldl_split (yielded : List (Int × ShardResult)) :
    ∀ (s : Finset Int) (e : Option Int),
    yielded.foldl
      (fun acc p =>
        (insert p.1 acc.1, pyOrUpdate acc.2 (shard_exit_code p.2.exit_codes)))
      (s, e)
      = (s ∪ (yielded.map Prod.fst).toFinset,
         (yielded.map (fun p => shard_exit_code p.2.exit_codes)).foldl
           pyOrUpdate e) := by
  induction yielded with
  | nil => intro s e; simp
  | cons p rest ih =>
    intro s e
    rw [List.foldl_cons, ih]
    simp [List.toFinset_cons, Finset.insert_union, Finset.union_insert]

/-- Python `or`-folding from a present accumulator keeps the first
non-zero value. -/
theorem pyOrUpdate_foldl_some (cs : List Int) :
    ∀ a : Int, cs.foldl pyOrUpdate (some a)
      = some (cs.foldl (fun x b => if x = 0 then b else x) a) := by
  induction cs with
  | nil => intro a; rfl
  | cons c rest ih =>
    intro a
    rw [List.foldl_cons, List.foldl_cons]
    by_cases h : a = 0 <;> simp [pyOrUpdate, h, ih]

/-- Python `or`-folding from `None`: still `None` on an empty list,
otherwise the first non-zero code (or `0`). -/
theorem pyOrUpdate_foldl_none (cs : List Int) :
    cs.foldl pyOrUpdate none
      = match cs with
        | [] => none
        | _ :: _ => some (py_or_fold cs) := by
  cases cs with
  | nil => rfl
  | cons c rest =>
    rw [List.foldl_cons, py_or_fold, List.foldl_cons]
    simpa [pyOrUpdate] using pyOrUpdate_foldl_some rest c

/-- What `collect` actually returns: the `or`-fold of the per-shard
codes, bumped to `1` when it is `0` or when shards are missing. -/
theorem collect_run_characterization (num_keys : Nat)
    (yielded : List (Int × ShardResult)) (hpos : 0 < num_keys)
    (hnd : (yielded.map Prod.fst).Nodup) :
    collect_run num_keys yielded
      = (if yielded.length = num_keys then
          py_or_fold (yielded.map (fun p => shard_exit_code p.2.exit_codes))
        else if py_or_fold (yielded.map (fun p => shard_exit_code p.2.exit_codes))
            = 0 then 1
        else py_or_fold (yielded.map (fun p => shard_exit_code p.2.exit_codes))) := by
  unfold collect_run
  rw [collect_foldl_split yielded ∅ none, pyOrUpdate_foldl_none]
  have hcard : ((∅ : Finset Int) ∪ (yielded.map Prod.fst).toFinset).card
      = yielded.length := by
    rw [Finset.empty_union, List.toFinset_card_of_nodup hnd, List.length_map]
  cases hy : yielded with
  | nil =>
    have : ¬ (0 = num_keys) := by omega
    subst hy
    simp [hcard, this, pyOrUpdate, py_or_fold]
  | cons p rest =>
    rw [← hy]
    have hne : yielded.map (fun p => shard_exit_code p.2.exit_codes) ≠ [] := by
      simp [hy]
    rcases hm : yielded.map (fun p => shard_exit_code p.2.exit_codes) with _ | ⟨c, cs⟩
    · exact absurd hm hne
    · simp only [hcard]
      by_cases hl : yielded.length = num_keys
      · simp [hl, hm]
      · by_cases hz : py_or_fold (c :: cs) = 0 <;>
          simp [hl, hm, pyOrUpdate, hz]

/-- C1 counterexample: two shards yielding exit-code strings "2" then
"3".  The claimed final exit code `max(per_shard_codes)` is 3, but
`collect` returns 2: `exit_code = exit_code or shard_exit_code` keeps
the first non-zero code, not the maximum. -/
theorem collect_exit_code_not_max_cex :
    collect_run 2 [(0, sampleResult 0 "2"), (1, sampleResult 1 "3")] = 2 ∧
    max (shard_exit_code "2") (shard_exit_code "3") = 3 ∧
    collect_run 2 [(0, sampleResult 0 "2"), (1, sampleResult 1 "3")]
      ≠ max (shard_exit_code "2") (shard_exit_code "3") := by
  refine ⟨by decide, by decide, by decide⟩

/-- C1 amended: each shard's exit code is the maximum of the
comma-separated integers in `exit_codes` (`'1'` substituted when
empty); the final exit code of a collection run is the Python
`or`-fold of the per-shard codes in yield order — the *first non-zero*
per-shard code, not their maximum — bumped to 1 when it is 0 and some
shard is missing.  It is at least 1 when fewer shards were seen than
task keys (per-shard codes being non-negative), and it is 0 exactly
when every shard was seen and every per-shard code was 0. -/
theorem collect_exit_code_amended (num_keys : Nat)
    (yielded : List (Int × ShardResult)) (hpos : 0 < num_keys)
    (hnd : (yielded.map Prod.fst).Nodup)
    (hrange : ∀ p ∈ yielded, 0 ≤ p.1 ∧ p.1 < (num_keys : Int))
    (hnonneg : ∀ p ∈ yielded, 0 ≤ shard_exit_code p.2.exit_codes) :
    (collect_run num_keys yielded
      = (if yielded.length = num_keys then
          py_or_fold (yielded.map (fun p => shard_exit_code p.2.exit_codes))
        else if py_or_fold (yielded.map (fun p => shard_exit_code p.2.exit_codes))
            = 0 then 1
        else py_or_fold
          (yielded.map (fun p => shard_exit_code p.2.exit_codes)))) ∧
    (yielded.length = num_keys →
      ∀ j : Int, 0 ≤ j → j < (num_keys : Int) → j ∈ yielded.map Prod.fst) ∧
    (yielded.length < num_keys → 1 ≤ collect_run num_keys yielded) ∧
    (collect_run num_keys yielded = 0 ↔
      yielded.length = num_keys ∧
      ∀ p ∈ yielded, shard_exit_code p.2.exit_codes = 0) := by
  have hchar := collect_run_characterization num_keys yielded hpos hnd
  have hfold_nonneg : 0 ≤ py_or_fold
      (yielded.map (fun p => shard_exit_code p.2.exit_codes)) := by
    rw [py_or_fold]
    have : ∀ cs : List Int, (∀ c ∈ cs, 0 ≤ c) → ∀ a : Int, 0 ≤ a →
        0 ≤ cs.foldl (fun x b => if x = 0 then b else x) a := by
      intro cs
      induction cs with
      | nil => intro _ a ha; simpa using ha
      | cons c rest ihc =>
        intro hcs a ha
        rw [List.foldl_cons]
        by_cases h : a = 0
        · simp only [h, if_pos rfl]
          exact ihc (fun d hd => hcs d (List.mem_cons_of_mem _ hd))
            c (hcs c (List.mem_cons_self _ _))
        · simp only [if_neg h]
          exact ihc (fun d hd => hcs d (List.mem_cons_of_mem _ hd)) a ha
    refine this _ (fun c hc => ?_) 0 le_rfl
    rcases List.mem_map.mp hc with ⟨p, hp, hpc⟩
    exact hpc ▸ hnonneg p hp
  have hfold_zero : py_or_fold
      (yielded.map (fun p => shard_exit_code p.2.exit_codes)) = 0 ↔
      ∀ p ∈ yielded, shard_exit_code p.2.exit_codes = 0 := by
    rw [py_or_fold]
    have : ∀ cs : List Int, ∀ a : Int,
        (cs.foldl (fun x b => if x = 0 then b else x) a = 0 ↔
          a = 0 ∧ ∀ c ∈ cs, c = 0) := by
      intro cs
      induction cs with
      | nil => intro a; simp
      | cons c rest ihc =>
        intro a
        rw [List.foldl_cons]
        by_cases h : a = 0
        · rw [if_pos h, ihc c]
          subst h
          constructor
          · rintro ⟨hc, hrest⟩
            exact ⟨rfl, fun d hd => by
              rcases List.mem_cons.mp hd with hd | hd
              · exact hd ▸ hc
              · exact hrest d hd⟩
          · rintro ⟨_, hall⟩
            exact ⟨hall c (List.mem_cons_self _ _),
              fun d hd => hall d (List.mem_cons_of_mem _ hd)⟩
        · rw [if_neg h, ihc a]
          constructor
          · rintro ⟨ha, _⟩; exact absurd ha h
          · rintro ⟨ha, _⟩; exact absurd ha h
    rw [this _ 0]
    constructor
    · rintro ⟨_, hall⟩ p hp
      exact hall _ (List.mem_map.mpr ⟨p, hp, rfl⟩)
    · intro hall
      refine ⟨rfl, fun c hc => ?_⟩
      rcases List.mem_map.mp hc with ⟨p, hp, hpc⟩
      exact hpc ▸ hall p hp
  have hlen_le : yielded.length ≤ num_keys := by
    have hsub : (yielded.map Prod.fst).toFinset
        ⊆ Finset.Ico (0 : Int) (num_keys : Int) := by
      intro j hj
      rcases List.mem_map.mp (List.mem_toFinset.mp hj) with ⟨p, hp, hpj⟩
      rcases hrange p hp with ⟨h1, h2⟩
      exact Finset.mem_Ico.mpr ⟨hpj ▸ h1, hpj ▸ h2⟩
    have := Finset.card_le_card hsub
    rwa [List.toFinset_card_of_nodup hnd, List.length_map, Int.card_Ico,
      show ((num_keys : Int) - 0).toNat = num_keys by omega] at this
  refine ⟨hchar, fun hlen j h0 hj => ?_, fun hmiss => ?_, ?_⟩
  · have hsub : (yielded.map Prod.fst).toFinset
        ⊆ Finset.Ico (0 : Int) (num_keys : Int) := by
      intro x hx
      rcases List.mem_map.mp (List.mem_toFinset.mp hx) with ⟨p, hp, hpx⟩
      rcases hrange p hp with ⟨h1, h2⟩
      exact Finset.mem_Ico.mpr ⟨hpx ▸ h1, hpx ▸ h2⟩
    have hcards : (Finset.Ico (0 : Int) (num_keys : Int)).card
        ≤ (yielded.map Prod.fst).toFinset.card := by
      rw [List.toFinset_card_of_nodup hnd, List.length_map, hlen, Int.card_Ico,
        show ((num_keys : Int) - 0).toNat = num_keys by omega]
    have heq := Finset.eq_of_subset_of_card_le hsub hcards
    have : j ∈ (yielded.map Prod.fst).toFinset := by
      rw [heq]
      exact Finset.mem_Ico.mpr ⟨h0, hj⟩
    exact List.mem_toFinset.mp this
  · rw [hchar, if_neg (by omega)]
    by_cases hz : py_or_fold
        (yielded.map (fun p => shard_exit_code p.2.exit_codes)) = 0
    · simp [hz]
    · rw [if_neg hz]
      omega
  · rw [hchar]
    by_cases hlen : yielded.length = num_keys
    · rw [if_pos hlen, hfold_zero]
      exact ⟨fun h => ⟨hlen, h⟩, fun h => h.2⟩
    · rw [if_neg hlen]
      by_cases hz : py_or_fold
          (yielded.map (fun p => shard_exit_code p.2.exit_codes)) = 0
      · simp only [hz, if_pos rfl]
        constructor
        · intro h; exact absurd h one_ne_zero
        · rintro ⟨h, _⟩; exact absurd h hlen
      · rw [if_neg hz]
        constructor
        · intro h; exact absurd h hz
        · rintro ⟨h, _⟩; exact absurd h hlen

/-- Witness for `collect_exit_code_amended`: both shards of a 2-shard
task seen with all-zero codes gives exit code 0. -/
theorem collect_exit_code_amended_witness :
    collect_run 2 [(0, sampleResult 0 "0,0"), (1, sampleResult 1 "0")] = 0 := by
  exact (collect_exit_code_amended 2
    [(0, sampleResult 0 "0,0"), (1, sampleResult 1 "0")]
    (by decide) (by decide) (by decide) (by decide)).2.2.2.mpr
    ⟨by decide, by decide⟩

/-- Totality of the code-point order. -/
theorem charListLe_total : ∀ as bs, charListLe as bs = true ∨ charListLe bs as = true := by
  intro as
  induction as with
  | nil => intro bs; left; rfl
  | cons a as ih =>
    intro bs
    cases bs with
    | nil => right; rfl
    | cons b bs =>
      by_cases hab : a = b
      · subst hab
        rcases ih bs with h | h
        · left; simpa [charListLe] using h
        · right; simpa [charListLe] using h
      · rcases lt_or_gt_of_ne hab with h | h
        · left; simp [charListLe, hab, h]
        · right
          have hba : ¬ b = a := fun hh => hab hh.symm
          simp [charListLe, hba]
          exact h

/-- Transitivity of the code-point order. -/
theorem charListLe_trans : ∀ as bs cs, charListLe as bs = true →
    charListLe bs cs = true → charListLe as cs = true := by
  intro as
  induction as with
  | nil => intro bs cs _ _; rfl
  | cons a as ih =>
    intro bs cs h1 h2
    cases bs with
    | nil => simp [charListLe] at h1
    | cons b bs =>
      cases cs with
      | nil => simp [charListLe] at h2
      | cons c cs =>
        by_cases hab : a = b
        · subst hab
          simp only [charListLe, if_pos rfl] at h1
          by_cases hac : a = c
          · subst hac
            simp only [charListLe, if_pos rfl] at h2 ⊢
            exact ih bs cs h1 h2
          · simp only [charListLe, if_neg hac] at h2 ⊢
            exact h2
        · simp only [charListLe, if_neg hab, decide_eq_true_eq] at h1
          by_cases hbc : b = c
          · subst hbc
            simp only [charListLe, if_neg hab, decide_eq_true_eq]
            exact h1
          · simp only [charListLe, if_neg hbc, decide_eq_true_eq] at h2
            have hac : a < c := lt_trans h1 h2
            simp only [charListLe, if_neg (ne_of_lt hac), decide_eq_true_eq]
            exact hac

/-- Antisymmetry of the code-point order. -/
theorem charListLe_antisymm : ∀ as bs, charListLe as bs = true →
    charListLe bs as = true → as = bs := by
  intro as
  induction as with
  | nil =>
    intro bs h1 h2
    cases bs with
    | nil => rfl
    | cons b bs => simp [charListLe] at h2
  | cons a as ih =>
    intro bs h1 h2
    cases bs with
    | nil => simp [charListLe] at h1
    | cons b bs =>
      by_cases hab : a = b
      · subst hab
        simp only [charListLe, if_pos rfl] at h1 h2
        rw [ih bs h1 h2]
      · have hba : ¬ b = a := fun hh => hab hh.symm
        simp only [charListLe, if_neg hab, decide_eq_true_eq] at h1
        simp only [charListLe, if_neg hba, decide_eq_true_eq] at h2
        exact absurd h2 (lt_asymm h1)

instance : IsTotal String pyStrLe :=
  ⟨fun a b => charListLe_total a.data b.data⟩

instance : IsTrans String pyStrLe :=
  ⟨fun a b c => charListLe_trans a.data b.data c.data⟩

instance : IsAntisymm String pyStrLe :=
  ⟨fun a b h1 h2 => String.ext (charListLe_antisymm a.data b.data h1 h2)⟩

/-- Left cancellation for string concatenation. -/
theorem strApp_cancel_left (a x y : String) (h : a ++ x = a ++ y) : x = y := by
  apply String.ext
  have h2 := congrArg String.data h
  rw [String.data_append, String.data_append] at h2
  exact List.append_cancel_left h2

/-- Right cancellation for string concatenation. -/
theorem strApp_cancel_right (x y b : String) (h : x ++ b = y ++ b) : x = y := by
  apply String.ext
  have h2 := congrArg String.data h
  rw [String.data_append, String.data_append] at h2
  exact List.append_cancel_right h2

/-- Folding concatenation from an arbitrary seed. -/
theorem strJoin_foldl (l : List String) :
    ∀ x : String, l.foldl (· ++ ·) x = x ++ String.join l := by
  induction l with
  | nil => intro x; simp [String.join, String.append_empty]
  | cons s rest ih =>
    intro x
    rw [List.foldl_cons, ih]
    rw [show String.join (s :: rest) = List.foldl (· ++ ·) ("" ++ s) rest from rfl,
      ih, String.empty_append, String.append_assoc]

/-- Concatenating the head in front of the joined tail. -/
theorem strJoin_cons (s : String) (l : List String) :
    String.join (s :: l) = s ++ String.join l := by
  rw [show String.join (s :: l) = List.foldl (· ++ ·) ("" ++ s) l from rfl,
    strJoin_foldl, String.empty_append]

/-- Joining an appended list. -/
theorem strJoin_append (a b : List String) :
    String.join (a ++ b) = String.join a ++ String.join b := by
  induction a with
  | nil => simp [String.join, String.empty_append]
  | cons s rest ih =>
    rw [List.cons_append, strJoin_cons, ih, strJoin_cons, String.append_assoc]

/-- Two joined lists with equal prefix and suffix lists agree on the
middle element. -/
theorem strJoin_middle_cancel (pre suf : List String) (x y : String)
    (h : String.join (pre ++ x :: suf) = String.join (pre ++ y :: suf)) : x = y := by
  rw [strJoin_append, strJoin_append, strJoin_cons, strJoin_cons] at h
  exact strApp_cancel_right x y (String.join suf) (strApp_cancel_left _ _ _ h)

/-- A successful lookup returns a binding of the list. -/
theorem mem_of_lookup_eq_some {α β : Type} [BEq α] [LawfulBEq α]
    {l : List (α × β)} {k : α} {v : β} (h : l.lookup k = some v) : (k, v) ∈ l := by
  induction l with
  | nil => simp [List.lookup] at h
  | cons p rest ih =>
    rcases p with ⟨a, b⟩
    by_cases hk : k = a
    · subst hk
      simp [List.lookup] at h
      simp [h]
    · have hb : (k == a) = false := beq_false_of_ne hk
      simp only [List.lookup, hb] at h
      exact List.mem_cons_of_mem _ (ih h)

/-- With pairwise-distinct keys, membership determines the lookup. -/
theorem lookup_eq_some_of_mem {α β : Type} [BEq α] [LawfulBEq α]
    {l : List (α × β)} {k : α} {v : β} (hnd : (l.map Prod.fst).Nodup)
    (hm : (k, v) ∈ l) : l.lookup k = some v := by
  induction l with
  | nil => cases hm
  | cons p rest ih =>
    rcases p with ⟨a, b⟩
    rcases List.mem_cons.mp hm with h | h
    · rw [show k = a from congrArg Prod.fst h]
      simp [List.lookup]
      exact (congrArg Prod.snd h).symm
    · by_cases hk : k = a
      · exfalso
        subst hk
        have : k ∈ rest.map Prod.fst := List.mem_map.mpr ⟨(k, v), h, rfl⟩
        exact (List.nodup_cons.mp (by simpa using hnd)).1 this
      · have hb : (k == a) = false := beq_false_of_ne hk
        simp only [List.lookup, hb]
        exact ih (List.nodup_cons.mp (by simpa using hnd)).2 h

/-- A failed lookup means the key is absent. -/
theorem lookup_eq_none_iff {α β : Type} [BEq α] [LawfulBEq α]
    (l : List (α × β)) (k : α) :
    l.lookup k = none ↔ k ∉ l.map Prod.fst := by
  induction l with
  | nil => simp [List.lookup]
  | cons p rest ih =>
    rcases p with ⟨a, b⟩
    by_cases hk : k = a
    · subst hk
      simp [List.lookup]
    · have hb : (k == a) = false := beq_false_of_ne hk
      simp [List.lookup, hb, ih, hk]

/-- Lookups agree across a permutation when keys are distinct. -/
theorem lookup_perm_eq {α β : Type} [BEq α] [LawfulBEq α]
    {l1 l2 : List (α × β)} (hp : l1.Perm l2)
    (hnd : (l1.map Prod.fst).Nodup) (k : α) : l1.lookup k = l2.lookup k := by
  have hnd2 : (l2.map Prod.fst).Nodup := (hp.map Prod.fst).nodup hnd
  cases h : l1.lookup k with
  | some v =>
    exact (lookup_eq_some_of_mem hnd2 (hp.mem_iff.mp (mem_of_lookup_eq_some h))).symm
  | none =>
    have hk := (lookup_eq_none_iff l1 k).mp h
    have hk2 : k ∉ l2.map Prod.fst := fun hmem =>
      hk (((hp.map Prod.fst).mem_iff).mpr hmem)
    exact ((lookup_eq_none_iff l2 k).mpr hk2).symm

/-- Mapping with pointwise-equal functions over a list. -/
theorem flatMap_congr_of_mem {α β : Type} (l : List α) (f g : α → List β)
    (h : ∀ a ∈ l, f a = g a) : l.flatMap f = l.flatMap g := by
  induction l with
  | nil => rfl
  | cons a rest ih =>
    rw [List.flatMap_cons, List.flatMap_cons, h a (List.mem_cons_self _ _),
      ih (fun b hb => h b (List.mem_cons_of_mem _ hb))]

/-- Sorting the keys of two permuted association lists gives the same
list. -/
theorem insertionSort_keys_perm_eq (l1 l2 : List (String × String))
    (hp : l1.Perm l2) :
    (l1.map Prod.fst).insertionSort pyStrLe
      = (l2.map Prod.fst).insertionSort pyStrLe := by
  apply List.eq_of_perm_of_sorted (r := pyStrLe)
  · exact (List.perm_insertionSort _ _).trans
      ((hp.map Prod.fst).trans (List.perm_insertionSort _ _).symm)
  · exact List.sorted_insertionSort _ _
  · exact List.sorted_insertionSort _ _

/-- Reordering the inputs dict leaves the signature stream unchanged:
the keys are traversed in sorted order and each key's path is looked up
in the dict. -/
theorem buildSignature_perm_invariant (p s : String) (cmds : List String)
    (l1 l2 : List (String × String)) (ph : String → String)
    (hp : l1.Perm l2) (hnd : (l1.map Prod.fst).Nodup) :
    BuildSignature p s cmds l1 ph = BuildSignature p s cmds l2 ph := by
  unfold BuildSignature buildSignatureUpdates
  rw [insertionSort_keys_perm_eq l1 l2 hp]
  rw [flatMap_congr_of_mem ((l2.map Prod.fst).insertionSort pyStrLe)
    (fun key => ["item_name:" ++ key ++ "\x00",
                 "item:" ++ ph ((l1.lookup key).getD "")])
    (fun key => ["item_name:" ++ key ++ "\x00",
                 "item:" ++ ph ((l2.lookup key).getD "")])
    (fun a _ => by simp only [lookup_perm_eq hp hnd a])]

/-- Changing the package name (everything else equal) changes the
signature stream. -/
theorem buildSignature_package_sensitive (p1 p2 s : String) (cmds : List String)
    (inputs : List (String × String)) (ph : String → String) (hne : p1 ≠ p2) :
    BuildSignature p1 s cmds inputs ph ≠ BuildSignature p2 s cmds inputs ph := by
  intro heq
  apply hne
  unfold BuildSignature buildSignatureUpdates at heq
  have heq2 : String.join (("package:" ++ p1) ::
        (["summary:" ++ s] ++ cmds.map (fun c => "command:" ++ c)
          ++ (((inputs.map Prod.fst).insertionSort pyStrLe).flatMap
            (fun key => ["item_name:" ++ key ++ "\x00",
                         "item:" ++ ph ((inputs.lookup key).getD "")]))))
      = String.join (("package:" ++ p2) ::
        (["summary:" ++ s] ++ cmds.map (fun c => "command:" ++ c)
          ++ (((inputs.map Prod.fst).insertionSort pyStrLe).flatMap
            (fun key => ["item_name:" ++ key ++ "\x00",
                         "item:" ++ ph ((inputs.lookup key).getD "")])))) := heq
  rw [strJoin_cons, strJoin_cons] at heq2
  exact strApp_cancel_left "package:" p1 p2 (strApp_cancel_right _ _ _ heq2)

/-- Changing one command's textual form (all other commands equal)
changes the signature stream. -/
theorem buildSignature_command_sensitive (p s : String) (cs1 cs2 : List String)
    (c1 c2 : String) (inputs : List (String × String)) (ph : String → String)
    (hne : c1 ≠ c2) :
    BuildSignature p s (cs1 ++ c1 :: cs2) inputs ph
      ≠ BuildSignature p s (cs1 ++ c2 :: cs2) inputs ph := by
  intro heq
  apply hne
  unfold BuildSignature buildSignatureUpdates at heq
  have hshape : ∀ c : String,
      ["package:" ++ p, "summary:" ++ s]
        ++ (cs1 ++ c :: cs2).map (fun c0 => "command:" ++ c0)
        ++ (((inputs.map Prod.fst).insertionSort pyStrLe).flatMap
          (fun key => ["item_name:" ++ key ++ "\x00",
                       "item:" ++ ph ((inputs.lookup key).getD "")]))
      = ((["package:" ++ p, "summary:" ++ s]
          ++ cs1.map (fun c0 => "command:" ++ c0))
        ++ ("command:" ++ c) :: (cs2.map (fun c0 => "command:" ++ c0)
          ++ (((inputs.map Prod.fst).insertionSort pyStrLe).flatMap
            (fun key => ["item_name:" ++ key ++ "\x00",
                         "item:" ++ ph ((inputs.lookup key).getD "")])))) := by
    intro c
    simp [List.map_append, List.append_assoc]
  rw [hshape c1, hshape c2] at heq
  exact strApp_cancel_left "command:" c1 c2 (strJoin_middle_cancel _ _ _ _ heq)

/-- Changing the content hash of one named input (all other inputs'
hashes equal) changes the signature stream. -/
theorem buildSignature_input_hash_sensitive (p s : String) (cmds : List String)
    (inputs : List (String × String)) (h1 h2 : String → String) (k : String)
    (hk : k ∈ inputs.map Prod.fst) (hnd : (inputs.map Prod.fst).Nodup)
    (hdiff : h1 ((inputs.lookup k).getD "") ≠ h2 ((inputs.lookup k).getD ""))
    (hsame : ∀ k2 ∈ inputs.map Prod.fst, k2 ≠ k →
      h1 ((inputs.lookup k2).getD "") = h2 ((inputs.lookup k2).getD "")) :
    BuildSignature p s cmds inputs h1 ≠ BuildSignature p s cmds inputs h2 := by
  intro heq
  apply hdiff
  unfold BuildSignature buildSignatureUpdates at heq
  have hkSK : k ∈ (inputs.map Prod.fst).insertionSort pyStrLe :=
    (List.perm_insertionSort pyStrLe _).mem_iff.mpr hk
  obtain ⟨A, B, hAB⟩ := List.append_of_mem hkSK
  have hndSK : ((inputs.map Prod.fst).insertionSort pyStrLe).Nodup :=
    (List.perm_insertionSort pyStrLe _).symm.nodup hnd
  rw [hAB] at hndSK
  rcases List.nodup_append.mp hndSK with ⟨hndA, hndKB, hdisj⟩
  have hkA : k ∉ A := fun hmem => hdisj hmem (List.mem_cons_self _ _)
  have hmemkeys : ∀ a, a ∈ A ∨ a ∈ B → a ∈ inputs.map Prod.fst ∧ a ≠ k := by
    intro a ha
    have haSK : a ∈ (inputs.map Prod.fst).insertionSort pyStrLe := by
      rw [hAB]
      rcases ha with ha | ha
      · exact List.mem_append_left _ ha
      · exact List.mem_append_right _ (List.mem_cons_of_mem _ ha)
    refine ⟨(List.perm_insertionSort pyStrLe _).mem_iff.mp haSK, fun hak => ?_⟩
    subst hak
    rcases ha with ha | ha
    · exact hkA ha
    · exact (List.nodup_cons.mp hndKB).1 ha
  have hFA : A.flatMap (fun key => ["item_name:" ++ key ++ "\x00",
        "item:" ++ h1 ((inputs.lookup key).getD "")])
      = A.flatMap (fun key => ["item_name:" ++ key ++ "\x00",
        "item:" ++ h2 ((inputs.lookup key).getD "")]) :=
    flatMap_congr_of_mem _ _ _ (fun a ha => by
      obtain ⟨hmem, hne⟩ := hmemkeys a (Or.inl ha)
      rw [hsame a hmem hne])
  have hFB : B.flatMap (fun key => ["item_name:" ++ key ++ "\x00",
        "item:" ++ h1 ((inputs.lookup key).getD "")])
      = B.flatMap (fun key => ["item_name:" ++ key ++ "\x00",
        "item:" ++ h2 ((inputs.lookup key).getD "")]) :=
    flatMap_congr_of_mem _ _ _ (fun a ha => by
      obtain ⟨hmem, hne⟩ := hmemkeys a (Or.inr ha)
      rw [hsame a hmem hne])
  rw [hAB, List.flatMap_append, List.flatMap_cons, List.flatMap_append,
    List.flatMap_cons, hFA, hFB] at heq
  have hshape : ∀ x : String,
      ["package:" ++ p, "summary:" ++ s] ++ cmds.map (fun c => "command:" ++ c)
        ++ (A.flatMap (fun key => ["item_name:" ++ key ++ "\x00",
              "item:" ++ h2 ((inputs.lookup key).getD "")])
          ++ (["item_name:" ++ k ++ "\x00", x]
            ++ B.flatMap (fun key => ["item_name:" ++ key ++ "\x00",
                "item:" ++ h2 ((inputs.lookup key).getD "")])))
      = ((["package:" ++ p, "summary:" ++ s]
            ++ cmds.map (fun c => "command:" ++ c)
            ++ A.flatMap (fun key => ["item_name:" ++ key ++ "\x00",
                "item:" ++ h2 ((inputs.lookup key).getD "")]))
          ++ ["item_name:" ++ k ++ "\x00"])
        ++ x :: B.flatMap (fun key => ["item_name:" ++ key ++ "\x00",
            "item:" ++ h2 ((inputs.lookup key).getD "")]) := by
    intro x
    simp [List.append_assoc]
  rw [hshape ("item:" ++ h1 ((inputs.lookup k).getD "")),
    hshape ("item:" ++ h2 ((inputs.lookup k).getD ""))] at heq
  exact strApp_cancel_left "item:" _ _ (strJoin_middle_cancel _ _ _ _ heq)

/-- C7: the build signature (its sha1 preimage stream) is invariant
under reordering of the inputs mapping — the keys are hashed in sorted
order — and changes whenever the package name changes, whenever one
input's content hash changes (the others fixed), or whenever one
command's textual form changes (the others fixed). -/
theorem buildSignature_sensitivity (p p2 s : String) (cmds cs1 cs2 : List String)
    (c1 c2 : String) (l1 l2 inputs : List (String × String))
    (ph h1 h2 : String → String) (k : String) :
    (l1.Perm l2 → (l1.map Prod.fst).Nodup →
      BuildSignature p s cmds l1 ph = BuildSignature p s cmds l2 ph) ∧
    (p ≠ p2 →
      BuildSignature p s cmds inputs ph ≠ BuildSignature p2 s cmds inputs ph) ∧
    (c1 ≠ c2 →
      BuildSignature p s (cs1 ++ c1 :: cs2) inputs ph
        ≠ BuildSignature p s (cs1 ++ c2 :: cs2) inputs ph) ∧
    (k ∈ inputs.map Prod.fst → (inputs.map Prod.fst).Nodup →
      h1 ((inputs.lookup k).getD "") ≠ h2 ((inputs.lookup k).getD "") →
      (∀ k2 ∈ inputs.map Prod.fst, k2 ≠ k →
        h1 ((inputs.lookup k2).getD "") = h2 ((inputs.lookup k2).getD "")) →
      BuildSignature p s cmds inputs h1 ≠ BuildSignature p s cmds inputs h2) :=
  ⟨fun hp hnd => buildSignature_perm_invariant p s cmds l1 l2 ph hp hnd,
   fun hne => buildSignature_package_sensitive p p2 s cmds inputs ph hne,
   fun hne => buildSignature_command_sensitive p s cs1 cs2 c1 c2 inputs ph hne,
   fun hk hnd hdiff hsame =>
     buildSignature_input_hash_sensitive p s cmds inputs h1 h2 k hk hnd hdiff
       hsame⟩

/-- Witness for `buildSignature_sensitivity`: a two-input package —
reordering the dict preserves the stream; renaming the package,
rewriting a command, or changing input `a`'s hash each perturb it. -/
theorem buildSignature_sensitivity_witness :
    (BuildSignature "pkg" "sys" ["cc a"] [("b", "pb"), ("a", "pa")] (fun _ => "H")
      = BuildSignature "pkg" "sys" ["cc a"] [("a", "pa"), ("b", "pb")]
        (fun _ => "H")) ∧
    (BuildSignature "pkg" "sys" ["cc a"] [("a", "pa")] (fun _ => "H")
      ≠ BuildSignature "qkg" "sys" ["cc a"] [("a", "pa")] (fun _ => "H")) ∧
    (BuildSignature "pkg" "sys" ["cc a"] [("a", "pa")] (fun _ => "H")
      ≠ BuildSignature "pkg" "sys" ["cc b"] [("a", "pa")] (fun _ => "H")) ∧
    (BuildSignature "pkg" "sys" ["cc a"] [("a", "pa"), ("b", "pb")] (fun _ => "H")
      ≠ BuildSignature "pkg" "sys" ["cc a"] [("a", "pa"), ("b", "pb")]
        (fun pth => if pth = "pa" then "H2" else "H")) := by
  refine ⟨?_, ?_, ?_, ?_⟩
  · exact (buildSignature_sensitivity "pkg" "qkg" "sys" ["cc a"] [] [] "x" "y"
      [("b", "pb"), ("a", "pa")] [("a", "pa"), ("b", "pb")] []
      (fun _ => "H") (fun _ => "H") (fun _ => "H") "a").1
      (List.Perm.swap ("a", "pa") ("b", "pb") []) (by decide)
  · exact (buildSignature_sensitivity "pkg" "qkg" "sys" ["cc a"] [] [] "x" "y"
      [] [] [("a", "pa")]
      (fun _ => "H") (fun _ => "H") (fun _ => "H") "a").2.1 (by decide)
  · exact (buildSignature_sensitivity "pkg" "qkg" "sys" [] [] [] "cc a" "cc b"
      [] [] [("a", "pa")]
      (fun _ => "H") (fun _ => "H") (fun _ => "H") "a").2.2.1 (by decide)
  · exact (buildSignature_sensitivity "pkg" "qkg" "sys" ["cc a"] [] [] "x" "y"
      [] [] [("a", "pa"), ("b", "pb")]
      (fun _ => "H") (fun _ => "H")
      (fun pth => if pth = "pa" then "H2" else "H") "a").2.2.2
      (by decide) (by decide) (by decide) (by decide)

/-- Witness for `run_cache_write_failure_propagates` at a concrete
storage. -/
theorem run_cache_write_failure_propagates_witness :
    Run_after_commands true true
      { getDirectory := fun _ => some { name := "o", hash_ := "h", url := "u" }
        putDirectory := fun _ => .ok { name := "o", hash_ := "h", url := "u" }
        putData := fun _ _ => .error { message := "upload failed" } }
      "pkg" "sig" "outhash"
      = .error { message := "upload failed" } :=
  (run_cache_write_failure_propagates
    { getDirectory := fun _ => some { name := "o", hash_ := "h", url := "u" }
      putDirectory := fun _ => .ok { name := "o", hash_ := "h", url := "u" }
      putData := fun _ _ => .error { message := "upload failed" } }
    "pkg" "sig" "outhash" { message := "upload failed" } rfl).1
    { name := "o", hash_ := "h", url := "u" } rfl
